import Mathlib

/-!
# Verification of the quant_conn_algos backtest orchestration and UI layer

Shallow embedding of the repository's code settled against its specification.

The embedding covers:
* `ui/src/App.jsx` — `cloneParameters`, `coerceParameterTypes`, `pollBacktest`;
* `ui/src/api/client.js` — `request`, `safeParseError`;
* the backend job orchestration and result normalization (`backend/app.py`),
  which is not part of the available sources and is therefore modelled from
  the specification where a claim needs it (each such definition carries a
  doc comment starting with `Modelled from the spec:`).

JavaScript numbers are embedded as `Int` (the manifest defaults and caller
overrides relevant to the claims are integers); `String(n)` and `Number(s)`
are embedded as an explicit decimal printer/parser pair restricted to
integer numerals.  JavaScript objects are embedded as association lists in
insertion order, matching `Object.entries` iteration order.
-/

namespace QuantConn

/-! ## Decimal printing and parsing (model of JS `String()` / `Number()`) -/

/-- The character for the decimal digit `d` (`0 ≤ d ≤ 9`). -/
def digitChar (d : Nat) : Char := Char.ofNat (48 + d)

/-- The digit value of a character, `none` when it is not a decimal digit. -/
def charDigit? (c : Char) : Option Nat :=
  if 48 ≤ c.toNat ∧ c.toNat ≤ 57 then some (c.toNat - 48) else none

/-- Little-endian digit characters of `n`; the first argument is fuel making
the recursion structural (`natToRevDigits` supplies enough fuel). -/
def natToRevDigitsAux : Nat → Nat → List Char
  | 0, _ => []
  | _ + 1, 0 => []
  | fuel + 1, n + 1 =>
    digitChar ((n + 1) % 10) :: natToRevDigitsAux fuel ((n + 1) / 10)

/-- Little-endian digit characters of `n` (empty exactly when `n = 0`). -/
def natToRevDigits (n : Nat) : List Char := natToRevDigitsAux n n

/-- Decimal string of a natural number, as JS `String()` produces it. -/
def natToString (n : Nat) : String :=
  if n = 0 then "0" else String.mk (natToRevDigits n).reverse

/-- Decimal string of an integer, the model of JS `String(n)` for integers. -/
def intToString (n : Int) : String :=
  if n < 0 then "-" ++ natToString n.natAbs else natToString n.natAbs

/-- Reads decimal digits most-significant first, accumulating into `acc`;
fails on any non-digit character. -/
def parseNatAux : List Char → Nat → Option Nat
  | [], acc => some acc
  | c :: cs, acc =>
    match charDigit? c with
    | some d => parseNatAux cs (acc * 10 + d)
    | none => none

/-- Parses a non-empty all-digit character list as a natural number. -/
def parseNatDigits (cs : List Char) : Option Nat :=
  match cs with
  | [] => none
  | _ => parseNatAux cs 0

/-- Integer parse of a character list: an optional leading minus sign
followed by decimal digits; the empty list yields `0` as JS
`Number('') = 0` does. -/
def jsNumberChars : List Char → Option Int
  | [] => some 0
  | c :: cs =>
    if c = '-' then
      match parseNatDigits cs with
      | some m => some (-(m : Int))
      | none => none
    else
      match parseNatDigits (c :: cs) with
      | some m => some ((m : Int))
      | none => none

/-- Model of JS `Number(s)` on the integer-numeral subset: `"21"` parses to
`21`, `"-7"` to `-7`, `""` to `0`, and anything containing a non-digit
(such as `"abc"`) yields `none`, standing for `NaN`.  Surrounding
whitespace and fractional or exponent forms are outside the modelled
subset. -/
def jsNumber (s : String) : Option Int := jsNumberChars s.data

/-! ## The JS value model for manifest defaults and caller overrides -/

/-- A JavaScript value as it occurs in parameter mappings: a (finite)
number, a string, or `null`.  `undefined` is represented by absence of the
key from the association list. -/
inductive JSValue where
  | num (n : Int)
  | str (s : String)
  | null
deriving DecidableEq, Repr

/-- Model of JS `Number(v)` followed by the `Number.isFinite` check:
numbers are finite, strings go through the numeric parse, and
`Number(null) = 0`. -/
def jsNumberOfValue : JSValue → Option Int
  | .num n => some n
  | .str s => jsNumber s
  | .null => some 0

/-- First-match lookup in an association list, the model of reading a
property of a JS object (`values[key]`, `undefined` ↦ `none`). -/
def lookupParam : List (String × JSValue) → String → Option JSValue
  | [], _ => none
  | (k, v) :: rest, key => if k = key then some v else lookupParam rest key

/-- Whether the object has the key (`result[key] !== undefined`). -/
def hasKey (m : List (String × JSValue)) (k : String) : Bool :=
  (lookupParam m k).isSome

/-! ## `ui/src/App.jsx` — parameter handling -/

/-- The entrywise transformation applied by `cloneParameters`:
`null`/`undefined` becomes `''`, numbers are stringified with `String()`,
everything else is kept. -/
def cloneValue : JSValue → JSValue
  | .null => .str ""
  | .num n => .str (intToString n)
  | .str s => .str s

/-- The function `cloneParameters` from `ui/src/App.jsx`: maps each entry of the input
object through `cloneValue`, preserving key order. -/
def cloneParameters (input : List (String × JSValue)) : List (String × JSValue) :=
  input.map (fun kv => (kv.1, cloneValue kv.2))

/-- The first loop body of `coerceParameterTypes`: resolves one default
entry `(k, defaultValue)` against the caller values.  Absent or
empty-string caller value falls back to the default; a numeric default
coerces the caller value through `Number`, falling back to the default
when the parse is not finite; otherwise the caller value passes through
unchanged. -/
def coerceDefaultEntry (currentValues : List (String × JSValue))
    (k : String) (defaultValue : JSValue) : JSValue :=
  match lookupParam currentValues k with
  | none => defaultValue
  | some raw =>
    if raw = .str "" then defaultValue
    else
      match defaultValue with
      | .num _ =>
        match jsNumberOfValue raw with
        | some m => .num m
        | none => defaultValue
      | _ => raw

/-- The second loop of `coerceParameterTypes`: appends each caller entry
whose key is not already present, skipping empty-string values, coercing
numeric-parseable values to numbers and keeping the rest as given. -/
def coerceExtras (result : List (String × JSValue)) :
    List (String × JSValue) → List (String × JSValue)
  | [] => result
  | kv :: rest =>
    if hasKey result kv.1 then coerceExtras result rest
    else if kv.2 = .str "" then coerceExtras result rest
    else
      match jsNumberOfValue kv.2 with
      | some m => coerceExtras (result ++ [(kv.1, .num m)]) rest
      | none => coerceExtras (result ++ [(kv.1, kv.2)]) rest

/-- The value the second loop of `coerceParameterTypes` stores for a
retained caller-only key: coerced to a number when `Number` yields a
finite value, otherwise the original value. -/
def retainedValue (v : JSValue) : JSValue :=
  match jsNumberOfValue v with
  | some m => .num m
  | none => v

/-- The function `coerceParameterTypes` from `ui/src/App.jsx`: resolves every default
key through `coerceDefaultEntry`, then retains remaining caller keys via
`coerceExtras`. -/
def coerceParameterTypes (currentValues : List (String × JSValue))
    (defaults : List (String × JSValue)) : List (String × JSValue) :=
  coerceExtras
    (defaults.map (fun kv => (kv.1, coerceDefaultEntry currentValues kv.1 kv.2)))
    currentValues

/-! ## `ui/src/App.jsx` — the completion polling loop -/

/-- The job snapshot as the polling loop inspects it: only the `status`
field is read by the loop's exit test. -/
structure JobSnapshot where
  status : Option String
deriving DecidableEq, Repr

/-- The loop exit test of `pollBacktest`
(`!job?.status || job.status === 'completed'`): a missing job, a missing or
empty (falsy) status, or status `completed` stops the polling; any other
status — including `failed` — keeps polling. -/
def pollStop (j : Option JobSnapshot) : Bool :=
  match j with
  | none => true
  | some job =>
    match job.status with
    | none => true
    | some s => s == "" || s == "completed"

/-- Outcome of the polling loop: the returned job value, or the thrown
`Timed out waiting for backtest to finish` error. -/
inductive PollOutcome where
  | returned (j : Option JobSnapshot)
  | timedOut
deriving DecidableEq, Repr

/-- One step of the `for` loop in `pollBacktest`: `get` gives the job
snapshot observed at each attempt index, `attempt` is the current index and
the last argument the remaining attempts.  The fixed 400 ms delay between
attempts has no effect on the returned value and is elided. -/
def pollAux (get : Nat → Option JobSnapshot) (attempt : Nat) :
    Nat → PollOutcome
  | 0 => .timedOut
  | remaining + 1 =>
    if pollStop (get attempt) then .returned (get attempt)
    else pollAux get (attempt + 1) remaining

/-- The function `pollBacktest` from `ui/src/App.jsx` (default `attempts = 8`,
`delayMs = 400`). -/
def pollBacktest (get : Nat → Option JobSnapshot) (attempts : Nat) : PollOutcome :=
  pollAux get 0 attempts

/-- A terminal job status in the specification's sense: `completed` or
`failed`. -/
def specTerminalStatus (s : String) : Bool := s == "completed" || s == "failed"

/-! ## `ui/src/api/client.js` — the REST request helper -/

/-- A JSON value, the parse result of a response body. -/
inductive Json where
  | null
  | bool (b : Bool)
  | num (n : Int)
  | str (s : String)
  | arr (elems : List Json)
  | obj (fields : List (String × Json))

/-- First-match field lookup in a JSON object's field list. -/
def lookupField : List (String × Json) → String → Option Json
  | [], _ => none
  | (k, v) :: rest, key => if k = key then some v else lookupField rest key

/-- Model of optional chaining `data?.detail`: a field read that yields
`undefined` (`none`) on anything but an object with that field. -/
def getField (j : Json) (key : String) : Option Json :=
  match j with
  | .obj fields => lookupField fields key
  | _ => none

/-- The part of a `fetch` `Response` the request helper inspects: the `ok`
flag, the `statusText`, and the result of `response.json()` — `none` when
the body is not valid JSON and the `json()` promise rejects. -/
structure FetchResponse where
  ok : Bool
  statusText : String
  jsonBody : Option Json

/-- The function `safeParseError` from `ui/src/api/client.js`: the body's `detail` field
when it parses and is a string, otherwise `statusText`, or the literal
`Request failed` when `statusText` is empty (falsy). -/
def safeParseError (r : FetchResponse) : String :=
  match r.jsonBody with
  | some data =>
    match getField data "detail" with
    | some (.str s) => s
    | _ => if r.statusText = "" then "Request failed" else r.statusText
  | none => if r.statusText = "" then "Request failed" else r.statusText

/-- Result of the `request` helper: a resolved value (`none` stands for JS
`undefined` when parsing is disabled), a thrown `Error` with its message,
or the propagated rejection of `response.json()` on an ok response (whose
error value is engine-defined, not an `Error` built by `request`). -/
inductive RequestOutcome where
  | success (body : Option Json)
  | thrown (message : String)
  | jsonRejected

/-- The function `request` from `ui/src/api/client.js`, after the `fetch` resolved to
`r`: non-ok responses throw `Error(safeParseError r)`; with parsing
disabled the helper resolves to `undefined`; otherwise it resolves to the
parsed JSON body, propagating the `json()` rejection if parsing fails. -/
def request (parse : Bool) (r : FetchResponse) : RequestOutcome :=
  if r.ok = false then .thrown (safeParseError r)
  else if parse = false then .success none
  else
    match r.jsonBody with
    | some j => .success (some j)
    | none => .jsonRejected

/-- The error message the claim specifies for a non-ok response, stated
from the claim's words (the body's `detail` field when that field is a
string, otherwise the response's status text, otherwise the literal
`Request failed`), to be compared against `safeParseError` from the
source. -/
def specErrorMessage (r : FetchResponse) : String :=
  match r.jsonBody with
  | some data =>
    match getField data "detail" with
    | some (.str s) => s
    | _ => if r.statusText = "" then "Request failed" else r.statusText
  | none => if r.statusText = "" then "Request failed" else r.statusText

/-! ## Backend job orchestration, modelled from the spec

The backend (`backend/app.py`: JobManager, JobStore, ResultNormalizer) is
not among the available sources — only its documentation and the spec
describe it — so the definitions in this section are modelled from the
spec's words and marked as such. -/

/-- Modelled from the spec: the job status domain
`queued → running → ⟨completed | failed⟩`. -/
inductive JobStatus where
  | queued
  | running
  | completed
  | failed
deriving DecidableEq, Repr

/-- Modelled from the spec: the JobManager status transitions
(`backend/app.py` is not among the available sources) — `queued` is
initial at create, `running` is set immediately before launch, and the
terminal states `completed` and `failed` have no outgoing transitions. -/
inductive JobStep : JobStatus → JobStatus → Prop where
  | start : JobStep .queued .running
  | complete : JobStep .running .completed
  | fail : JobStep .running .failed

/-- One point of a normalized time series (`{time, value}`). -/
structure SeriesPoint where
  time : Nat
  value : Rat
deriving DecidableEq, Repr

/-- First-match lookup of a named series among chart sections. -/
def lookupSeries : List (String × List SeriesPoint) → String → Option (List SeriesPoint)
  | [], _ => none
  | (k, pts) :: rest, key => if k = key then some pts else lookupSeries rest key

/-- Ascending time order on series points, as a boolean relation for
sorting. -/
def timeLe (a b : SeriesPoint) : Bool := decide (a.time ≤ b.time)

/-- Sorts a series ascending by time. -/
def sortByTime (pts : List SeriesPoint) : List SeriesPoint :=
  pts.mergeSort timeLe

/-- Modelled from the spec: indicator extraction by the ResultNormalizer
(`backend/app.py` is not among the available sources) — iterates the
configured indicator keys over the raw output's chart sections, keeps only
keys whose series has non-empty data, emits each kept series time-ordered
ascending, and yields an empty mapping — never an error — when no
configured section is present in the raw output. -/
def extractIndicators (configured : List String)
    (raw : List (String × List SeriesPoint)) : List (String × List SeriesPoint) :=
  configured.filterMap (fun key =>
    match lookupSeries raw key with
    | none => none
    | some pts => if pts = [] then none else some (key, sortByTime pts))

/-- Direction of a reconstructed trade. -/
inductive TradeDirection where
  | long
  | short
deriving DecidableEq, Repr

/-- The sign of a trade direction: `+1` for long, `-1` for short. -/
def dirSign : TradeDirection → Rat
  | .long => 1
  | .short => -1

/-- One execution/report fill: symbol, side, time, price, quantity. -/
structure Fill where
  symbol : String
  isBuy : Bool
  time : Nat
  price : Rat
  quantity : Rat
deriving DecidableEq, Repr

/-- One normalized trade of the canonical schema. -/
structure Trade where
  id : Nat
  symbol : String
  direction : TradeDirection
  entryTime : Nat
  entryPrice : Rat
  exitTime : Nat
  exitPrice : Rat
  quantity : Rat
  profit : Rat
deriving DecidableEq, Repr

/-- The trade closed by pairing an entry fill with an opposite-direction
exit fill: long when the entry is a buy, with
`profit = (exitPrice - entryPrice) * quantity * sign(direction)`. -/
def mkTrade (tid : Nat) (entryFill exitFill : Fill) : Trade :=
  let dir := if entryFill.isBuy then TradeDirection.long else TradeDirection.short
  { id := tid
    symbol := entryFill.symbol
    direction := dir
    entryTime := entryFill.time
    entryPrice := entryFill.price
    exitTime := exitFill.time
    exitPrice := exitFill.price
    quantity := entryFill.quantity
    profit := (exitFill.price - entryFill.price) * entryFill.quantity * dirSign dir }

/-- Modelled from the spec: the pairing walk of the fallback trade
reconstruction (`backend/app.py` is not among the available sources) — at
most one pending entry fill is kept; the next opposite-direction fill
closes it into a trade; a same-direction fill while an entry is pending is
skipped; an entry never closed yields no trade. -/
def pairFillsAux (pending : Option Fill) (nextId : Nat) :
    List Fill → List Trade
  | [] => []
  | f :: rest =>
    match pending with
    | none => pairFillsAux (some f) nextId rest
    | some e =>
      if f.isBuy = e.isBuy then pairFillsAux (some e) nextId rest
      else mkTrade nextId e f :: pairFillsAux none (nextId + 1) rest

/-- Modelled from the spec: fallback trade reconstruction from the
execution/report section — filters the fills strictly to the requested
symbol, then pairs opposite-direction fills in order. -/
def reconstructTrades (requestedSymbol : String) (fills : List Fill) : List Trade :=
  pairFillsAux none 1 (fills.filter (fun f => f.symbol == requestedSymbol))

/-- Modelled from the spec: the canonical normalized result, reduced to the
sections the claims inspect (the remaining sections carry no constraint
used by any claim). -/
structure BacktestResult where
  equityCurve : List SeriesPoint
  trades : List Trade
  indicators : List (String × List SeriesPoint)
deriving Repr

/-- Modelled from the spec: one job record of the JobStore — status,
`result` set on completion, `error` set on failure. -/
structure JobRecord where
  status : JobStatus
  result : Option BacktestResult
  error : Option String
deriving Repr

/-- Modelled from the spec: the freshly created job record (status
`queued`, no result, no error). -/
def createdJob : JobRecord := { status := .queued, result := none, error := none }

/-- Modelled from the spec: the background task's updates to a job record —
`start` immediately before launching the engine, `complete` storing the
normalized result, `fail` storing the diagnostic. -/
inductive JobUpdate : JobRecord → JobRecord → Prop where
  | start (j : JobRecord) : j.status = .queued →
      JobUpdate j { j with status := .running }
  | complete (j : JobRecord) (res : BacktestResult) : j.status = .running →
      JobUpdate j { j with status := .completed, result := some res }
  | fail (j : JobRecord) (msg : String) : j.status = .running →
      JobUpdate j { j with status := .failed, error := some msg }

/-- A job record reachable by the lifecycle: created by `create`, then
updated only by the background task's `JobUpdate` steps. -/
inductive ReachableJob : JobRecord → Prop where
  | created : ReachableJob createdJob
  | step {j j' : JobRecord} : ReachableJob j → JobUpdate j j' → ReachableJob j'

/-- The invariant claimed of every served job snapshot: `result` present
iff completed, `error` present iff failed. -/
def resultErrorInv (j : JobRecord) : Prop :=
  (j.result.isSome ↔ j.status = .completed) ∧ (j.error.isSome ↔ j.status = .failed)

/-- The error taxonomy surfaced synchronously by the JobManager. -/
inductive ApiError where
  | notFound
  | validation
deriving DecidableEq, Repr

/-- Last-match lookup in the JobStore's chronological write log: the latest
written snapshot for the id. -/
def lookupJob : List (String × JobRecord) → String → Option JobRecord
  | [], _ => none
  | (k, j) :: rest, key =>
    match lookupJob rest key with
    | some j' => some j'
    | none => if k = key then some j else none

/-- Modelled from the spec: `JobManager.get` (`backend/app.py` is not among
the available sources) — fails with `NotFoundError` for unknown ids,
otherwise returns the latest written snapshot. -/
def getJob (store : List (String × JobRecord)) (jobId : String) :
    Except ApiError JobRecord :=
  match lookupJob store jobId with
  | none => .error .notFound
  | some j => .ok j

/-- Modelled from the spec: the manifest-id validation of
`JobManager.create` (`backend/app.py` is not among the available sources) —
an algorithm id absent from the manifest fails synchronously with
`ValidationError` and instantiates no job; a known id records the fresh
queued job under the new id.  Date-range and symbol validation are
orthogonal to the claim and elided. -/
def createJob (manifest : List String) (store : List (String × JobRecord))
    (algorithmId : String) (newId : String) :
    Except ApiError (String × List (String × JobRecord)) :=
  if algorithmId ∈ manifest then .ok (newId, store ++ [(newId, createdJob)])
  else .error .validation

/-! ## Concrete examples used by the witnesses -/

/-- A non-ok response carrying a string `detail` field, as in the repo's
own client tests. -/
def sampleErrorResponse : FetchResponse :=
  { ok := false
    statusText := "Not Found"
    jsonBody := some (.obj [("detail", .str "missing")]) }

/-- Two opposite-direction SPY fills forming one round trip. -/
def sampleFills : List Fill :=
  [{ symbol := "SPY", isBuy := true, time := 1, price := 100, quantity := 5 },
   { symbol := "SPY", isBuy := false, time := 2, price := 110, quantity := 5 }]

/-- The trade reconstructed from `sampleFills`. -/
def sampleTrade : Trade :=
  { id := 1
    symbol := "SPY"
    direction := .long
    entryTime := 1
    entryPrice := 100
    exitTime := 2
    exitPrice := 110
    quantity := 5
    profit := 50 }

/-! ## Round-trip lemmas for the decimal printer/parser -/

theorem charDigit?_digitChar {d : Nat} (hd : d < 10) :
    charDigit? (digitChar d) = some d := by
  interval_cases d <;> decide

theorem digitChar_ne_minus {d : Nat} (hd : d < 10) : digitChar d ≠ '-' := by
  interval_cases d <;> decide

theorem parseNatAux_append (xs ys : List Char) (acc : Nat) :
    parseNatAux (xs ++ ys) acc =
      match parseNatAux xs acc with
      | some a => parseNatAux ys a
      | none => none := by
  induction xs generalizing acc with
  | nil => simp [parseNatAux]
  | cons c cs ih =>
    simp only [List.cons_append, parseNatAux]
    cases charDigit? c with
    | some d => exact ih _
    | none => rfl

theorem parseNatAux_revDigitsAux (fuel : Nat) :
    ∀ n acc, n ≤ fuel →
      parseNatAux (natToRevDigitsAux fuel n).reverse acc =
        some (acc * 10 ^ (natToRevDigitsAux fuel n).length + n) := by
  induction fuel with
  | zero =>
    intro n acc hn
    have : n = 0 := Nat.le_zero.mp hn
    subst this
    simp [natToRevDigitsAux, parseNatAux]
  | succ fuel ih =>
    intro n acc hn
    match n with
    | 0 => simp [natToRevDigitsAux, parseNatAux]
    | m + 1 =>
      have hdiv : (m + 1) / 10 ≤ fuel := by
        have h1 : (m + 1) / 10 < m + 1 := Nat.div_lt_self (Nat.succ_pos m) (by omega)
        omega
      have hmod : (m + 1) % 10 < 10 := Nat.mod_lt _ (by omega)
      simp only [natToRevDigitsAux, List.reverse_cons]
      rw [parseNatAux_append, ih _ acc hdiv]
      simp only [parseNatAux, charDigit?_digitChar hmod, List.length_cons]
      have hpow : 10 ^ ((natToRevDigitsAux fuel ((m + 1) / 10)).length + 1) =
          10 ^ (natToRevDigitsAux fuel ((m + 1) / 10)).length * 10 := pow_succ 10 _
      have hdm : (m + 1) / 10 * 10 + (m + 1) % 10 = m + 1 := by omega
      congr 1
      rw [hpow]
      ring_nf
      omega

theorem parseNatDigits_natToString (n : Nat) :
    parseNatDigits (natToString n).data = some n := by
  match n with
  | 0 => decide
  | m + 1 =>
    have hdata : (natToString (m + 1)).data = (natToRevDigitsAux (m + 1) (m + 1)).reverse := by
      simp [natToString, natToRevDigits]
    rw [hdata]
    have hcons : natToRevDigitsAux (m + 1) (m + 1) =
        digitChar ((m + 1) % 10) :: natToRevDigitsAux m ((m + 1) / 10) := rfl
    have hroundtrip := parseNatAux_revDigitsAux (m + 1) (m + 1) 0 (Nat.le_refl _)
    rcases hrev : (natToRevDigitsAux (m + 1) (m + 1)).reverse with _ | ⟨c, cs⟩
    · exact absurd (by simpa using congrArg List.reverse hrev) (by rw [hcons]; simp)
    · rw [hrev] at hroundtrip
      simpa [parseNatDigits] using hroundtrip

theorem mem_natToRevDigitsAux (fuel : Nat) :
    ∀ n c, c ∈ natToRevDigitsAux fuel n → ∃ d, d < 10 ∧ c = digitChar d := by
  induction fuel with
  | zero => intro n c hc; simp [natToRevDigitsAux] at hc
  | succ fuel ih =>
    intro n c hc
    match n with
    | 0 => simp [natToRevDigitsAux] at hc
    | m + 1 =>
      simp only [natToRevDigitsAux, List.mem_cons] at hc
      rcases hc with hc | hc
      · exact ⟨(m + 1) % 10, Nat.mod_lt _ (by omega), hc⟩
      · exact ih _ c hc

theorem jsNumber_natToString (m : Nat) : jsNumber (natToString m) = some (m : Int) := by
  match m with
  | 0 => decide
  | k + 1 =>
    have hdata : (natToString (k + 1)).data = (natToRevDigitsAux (k + 1) (k + 1)).reverse := by
      simp [natToString, natToRevDigits]
    rcases hrev : (natToRevDigitsAux (k + 1) (k + 1)).reverse with _ | ⟨c, cs⟩
    · exact absurd (by simpa using congrArg List.reverse hrev)
        (by show digitChar _ :: _ ≠ []; simp)
    · have hcmem : c ∈ natToRevDigitsAux (k + 1) (k + 1) := by
        rw [← List.mem_reverse, hrev]; exact List.mem_cons_self c cs
      obtain ⟨d, hd10, hcd⟩ := mem_natToRevDigitsAux _ _ _ hcmem
      have hcne : c ≠ '-' := hcd ▸ digitChar_ne_minus hd10
      have hparse := parseNatDigits_natToString (k + 1)
      rw [hdata, hrev] at hparse
      simp [jsNumber, hdata, hrev, jsNumberChars, hcne, hparse]

theorem jsNumber_intToString (n : Int) : jsNumber (intToString n) = some n := by
  by_cases hneg : n < 0
  · simp only [intToString, if_pos hneg]
    have hdata : ("-" ++ natToString n.natAbs).data = '-' :: (natToString n.natAbs).data := by
      rw [String.data_append]; rfl
    have hparse : parseNatDigits (natToString n.natAbs).data = some n.natAbs :=
      parseNatDigits_natToString _
    have hstep : jsNumber ("-" ++ natToString n.natAbs) = some (-((n.natAbs : Int))) := by
      simp [jsNumber, hdata, jsNumberChars, hparse]
    rw [hstep]
    congr 1
    omega
  · have habs : ((n.natAbs : Int)) = n := by omega
    simp only [intToString, if_neg hneg]
    rw [jsNumber_natToString, habs]

theorem natToString_ne_empty (n : Nat) : natToString n ≠ "" := by
  match n with
  | 0 => decide
  | m + 1 =>
    intro h
    have hdata : (natToString (m + 1)).data = (natToRevDigitsAux (m + 1) (m + 1)).reverse := by
      simp [natToString, natToRevDigits]
    have : (natToRevDigitsAux (m + 1) (m + 1)).reverse = [] := by
      rw [← hdata, h]
    have hcons : natToRevDigitsAux (m + 1) (m + 1) =
        digitChar ((m + 1) % 10) :: natToRevDigitsAux m ((m + 1) / 10) := rfl
    rw [hcons] at this
    simp at this

theorem intToString_ne_empty (n : Int) : intToString n ≠ "" := by
  by_cases hneg : n < 0
  · simp only [intToString, if_pos hneg]
    intro h
    have hd := congrArg String.data h
    rw [String.data_append] at hd
    have e1 : ("-" : String).data = ['-'] := rfl
    have e2 : ("" : String).data = [] := rfl
    rw [e1, e2] at hd
    simp at hd
  · simpa only [intToString, if_neg hneg] using natToString_ne_empty n.natAbs

/-! ## Association-list lemmas -/

theorem lookupParam_append (l l' : List (String × JSValue)) (k : String) :
    lookupParam (l ++ l') k =
      match lookupParam l k with
      | some v => some v
      | none => lookupParam l' k := by
  induction l with
  | nil => simp [lookupParam]
  | cons kv rest ih =>
    obtain ⟨k₁, v₁⟩ := kv
    by_cases hk : k₁ = k
    · simp [lookupParam, hk]
    · simp [lookupParam, hk, ih]

theorem lookupParam_map_entry (g : String → JSValue → JSValue)
    (l : List (String × JSValue)) (k : String) :
    lookupParam (l.map fun kv => (kv.1, g kv.1 kv.2)) k =
      (lookupParam l k).map (g k) := by
  induction l with
  | nil => simp [lookupParam]
  | cons kv rest ih =>
    obtain ⟨k₁, v₁⟩ := kv
    by_cases hk : k₁ = k
    · subst hk; simp [lookupParam]
    · simp [lookupParam, hk, ih]

theorem lookupParam_of_mem (l : List (String × JSValue)) (k : String) (v : JSValue)
    (hnodup : (l.map Prod.fst).Nodup) (hmem : (k, v) ∈ l) :
    lookupParam l k = some v := by
  induction l with
  | nil => simp at hmem
  | cons kv rest ih =>
    obtain ⟨k₁, v₁⟩ := kv
    simp only [List.map_cons, List.nodup_cons] at hnodup
    rcases List.mem_cons.mp hmem with heq | htail
    · obtain ⟨rfl, rfl⟩ := Prod.mk.injEq .. ▸ heq
      simp [lookupParam]
    · have hk : k₁ ≠ k := by
        intro h
        subst h
        exact hnodup.1 (List.mem_map.mpr ⟨(k₁, v), htail, rfl⟩)
      simp [lookupParam, hk, ih hnodup.2 htail]

theorem hasKey_of_mem_fst (l : List (String × JSValue)) (k : String)
    (h : k ∈ l.map Prod.fst) : hasKey l k = true := by
  induction l with
  | nil => simp at h
  | cons kv rest ih =>
    obtain ⟨k₁, v₁⟩ := kv
    by_cases hk : k₁ = k
    · simp [hasKey, lookupParam, hk]
    · simp only [List.map_cons, List.mem_cons] at h
      rcases h with h | h

      · exact absurd h.symm hk
      · simpa [hasKey, lookupParam, hk] using ih h

/-! ## Behaviour of `coerceExtras` -/

theorem coerceExtras_preserve (cvs : List (String × JSValue)) :
    ∀ acc k, hasKey acc k = true →
      lookupParam (coerceExtras acc cvs) k = lookupParam acc k := by
  induction cvs with
  | nil => intro acc k _; rfl
  | cons kv rest ih =>
    intro acc k hk
    obtain ⟨v, hv⟩ := Option.isSome_iff_exists.mp hk
    have happ : ∀ e : String × JSValue,
        lookupParam (acc ++ [e]) k = lookupParam acc k := by
      intro e
      rw [lookupParam_append, hv]
    have happk : ∀ e : String × JSValue, hasKey (acc ++ [e]) k = true := by
      intro e
      simp only [hasKey, happ e, hv, Option.isSome_some]
    show lookupParam (coerceExtras acc (kv :: rest)) k = lookupParam acc k
    simp only [coerceExtras]
    by_cases h1 : hasKey acc kv.1
    · simp only [h1, if_true]
      exact ih acc k hk
    · simp only [h1]
      by_cases h2 : kv.2 = .str ""
      · simp [h1, h2, ih acc k hk]
      · simp only [h1, h2, if_false, Bool.false_eq_true]
        cases hnum : jsNumberOfValue kv.2 with
        | some m =>
          simp only [if_neg h2]
          rw [ih _ k (happk _), happ]
        | none =>
          simp only [if_neg h2]
          rw [ih _ k (happk _), happ]

theorem coerceExtras_retains (cvs : List (String × JSValue)) :
    ∀ acc k v, hasKey acc k = false → lookupParam cvs k = some v →
      v ≠ .str "" →
      lookupParam (coerceExtras acc cvs) k = some (retainedValue v) := by
  induction cvs with
  | nil => intro acc k v _ hlook _; simp [lookupParam] at hlook
  | cons kv rest ih =>
    intro acc k v hacc hlook hne
    obtain ⟨k₁, v₁⟩ := kv
    have haccnone : lookupParam acc k = none := by
      simpa [hasKey, Option.isSome_iff_exists] using hacc
    by_cases hk : k₁ = k
    · subst hk
      have hv : v₁ = v := by simpa [lookupParam] using hlook
      subst hv
      have hhk1 : hasKey acc k₁ = false := hacc
      have hlookapp : ∀ w : JSValue, lookupParam (acc ++ [(k₁, w)]) k₁ = some w := by
        intro w
        rw [lookupParam_append, haccnone]
        simp [lookupParam]
      have hhkapp : ∀ w : JSValue, hasKey (acc ++ [(k₁, w)]) k₁ = true := by
        intro w
        simp [hasKey, hlookapp w]
      simp only [coerceExtras, hhk1, Bool.false_eq_true, if_false, if_neg hne]
      cases hnum : jsNumberOfValue v₁ with
      | some m =>
        rw [coerceExtras_preserve rest _ k₁ (hhkapp _), hlookapp]
        simp [retainedValue, hnum]
      | none =>
        rw [coerceExtras_preserve rest _ k₁ (hhkapp _), hlookapp]
        simp [retainedValue, hnum]
    · have hrest : lookupParam rest k = some v := by
        simpa [lookupParam, hk] using hlook
      have haccapp : ∀ e : String × JSValue, e.1 = k₁ →
          hasKey (acc ++ [e]) k = false := by
        intro e he
        have : lookupParam (acc ++ [e]) k = none := by
          rw [lookupParam_append, haccnone]
          obtain ⟨e1, e2⟩ := e
          simp only at he
          subst he
          simp [lookupParam, hk]
        simp [hasKey, this]
      simp only [coerceExtras]
      by_cases h1 : hasKey acc k₁
      · simp only [h1, if_true]
        exact ih acc k v hacc hrest hne
      · simp only [h1, Bool.false_eq_true, if_false]
        by_cases h2 : v₁ = .str ""
        · simp only [h2, if_true]
          exact ih acc k v hacc hrest hne
        · simp only [if_neg h2]
          cases hnum : jsNumberOfValue v₁ with
          | some m => exact ih _ k v (haccapp _ rfl) hrest hne
          | none => exact ih _ k v (haccapp _ rfl) hrest hne

theorem coerceExtras_skips (cvs : List (String × JSValue)) :
    ∀ acc, (∀ kv ∈ cvs, hasKey acc kv.1 = true) → coerceExtras acc cvs = acc := by
  induction cvs with
  | nil => intro acc _; rfl
  | cons kv rest ih =>
    intro acc hall
    have h1 : hasKey acc kv.1 = true := hall kv (List.mem_cons_self ..)
    simp only [coerceExtras, h1, if_true]
    exact ih acc (fun kv' h => hall kv' (List.mem_cons_of_mem _ h))

/-- Resolution of a default key by `coerceParameterTypes`: the first loop
decides it via `coerceDefaultEntry` and the second loop never overwrites
it. -/
theorem lookup_coerce_default (currentValues defaults : List (String × JSValue))
    (k : String) (dv : JSValue) (hdv : lookupParam defaults k = some dv) :
    lookupParam (coerceParameterTypes currentValues defaults) k =
      some (coerceDefaultEntry currentValues k dv) := by
  have h1 : lookupParam
      (defaults.map fun kv => (kv.1, coerceDefaultEntry currentValues kv.1 kv.2)) k =
      some (coerceDefaultEntry currentValues k dv) := by
    rw [lookupParam_map_entry, hdv]
    rfl
  have h2 : hasKey
      (defaults.map fun kv => (kv.1, coerceDefaultEntry currentValues kv.1 kv.2)) k = true := by
    simp [hasKey, h1]
  rw [coerceParameterTypes, coerceExtras_preserve _ _ _ h2, h1]

/-! ## Claim C1 — resolution of default parameter keys -/

/-- C1: for every defaults mapping and caller override mapping, the
resolved parameter for each default key is the default value when the
caller supplies no value or an empty string; when the default is numeric,
the numeric parse of the caller's value, falling back silently to the
default (never erroring) on parse failure; and when the default is a
string, the caller's value passed through unchanged. -/
theorem coerce_default_resolution
    (defaults overrides : List (String × JSValue)) (k : String) (dv : JSValue)
    (hdv : lookupParam defaults k = some dv) :
    ((lookupParam overrides k = none ∨ lookupParam overrides k = some (JSValue.str "")) →
      lookupParam (coerceParameterTypes overrides defaults) k = some dv) ∧
    (∀ d v, dv = JSValue.num d → lookupParam overrides k = some v →
      v ≠ JSValue.str "" →
      lookupParam (coerceParameterTypes overrides defaults) k =
        some (match jsNumberOfValue v with
              | some m => JSValue.num m
              | none => JSValue.num d)) ∧
    (∀ s v, dv = JSValue.str s → lookupParam overrides k = some v →
      v ≠ JSValue.str "" →
      lookupParam (coerceParameterTypes overrides defaults) k = some v) := by
  refine ⟨?_, ?_, ?_⟩
  · intro h
    rw [lookup_coerce_default overrides defaults k dv hdv]
    rcases h with h | h
    · simp [coerceDefaultEntry, h]
    · simp [coerceDefaultEntry, h]
  · intro d v hd hv hne
    subst hd
    rw [lookup_coerce_default overrides defaults k _ hdv]
    simp only [coerceDefaultEntry, hv, if_neg hne]
  · intro s v hs hv hne
    subst hs
    rw [lookup_coerce_default overrides defaults k _ hdv]
    simp [coerceDefaultEntry, hv, if_neg hne]

/-- Witness for C1 at the spec's concrete example: numeric default `14`
with caller override `"21"` resolves to `21`, and with override `"abc"`
falls back to `14`. -/
theorem coerce_default_resolution_witness :
    lookupParam (coerceParameterTypes [("period", JSValue.str "21")]
      [("period", JSValue.num 14)]) "period" = some (JSValue.num 21) ∧
    lookupParam (coerceParameterTypes [("period", JSValue.str "abc")]
      [("period", JSValue.num 14)]) "period" = some (JSValue.num 14) := by
  constructor
  · have h := (coerce_default_resolution [("period", JSValue.num 14)]
      [("period", JSValue.str "21")] "period" (JSValue.num 14) (by decide)).2.1
      14 (JSValue.str "21") rfl (by decide) (by decide)
    exact h.trans (by decide)
  · have h := (coerce_default_resolution [("period", JSValue.num 14)]
      [("period", JSValue.str "abc")] "period" (JSValue.num 14) (by decide)).2.1
      14 (JSValue.str "abc") rfl (by decide) (by decide)
    exact h.trans (by decide)

/-! ## Claim C5 — retention of caller-only keys -/

/-- C5 counterexample: the caller-supplied key `x` with the empty-string
value, absent from the defaults, is dropped from the resolved parameters —
not retained as the claim states. -/
theorem coerce_empty_extra_dropped_cex :
    lookupParam [("x", JSValue.str "")] "x" = some (JSValue.str "") ∧
    lookupParam ([] : List (String × JSValue)) "x" = none ∧
    lookupParam (coerceParameterTypes [("x", JSValue.str "")] []) "x" = none := by
  refine ⟨rfl, rfl, rfl⟩

/-- C5 (amended): every caller-supplied key absent from the defaults whose
supplied value is not the empty string is retained in the resolved
parameters — coerced to a number when its value is numeric-parseable,
otherwise kept as the original value; a key supplied with the empty string
is skipped. -/
theorem coerce_extras_retained
    (overrides defaults : List (String × JSValue)) (k : String) (v : JSValue)
    (hov : lookupParam overrides k = some v) (hne : v ≠ JSValue.str "")
    (habs : lookupParam defaults k = none) :
    lookupParam (coerceParameterTypes overrides defaults) k =
      some (retainedValue v) := by
  have h1 : lookupParam
      (defaults.map fun kv => (kv.1, coerceDefaultEntry overrides kv.1 kv.2)) k = none := by
    rw [lookupParam_map_entry, habs]
    rfl
  have h2 : hasKey
      (defaults.map fun kv => (kv.1, coerceDefaultEntry overrides kv.1 kv.2)) k = false := by
    simp [hasKey, h1]
  rw [coerceParameterTypes]
  exact coerceExtras_retains overrides _ k v h2 hov hne

/-- Witness for C5 (amended): the caller-only key `extra` with value `"5"`
is retained and coerced to the number `5`. -/
theorem coerce_extras_retained_witness :
    lookupParam (coerceParameterTypes [("extra", JSValue.str "5")] []) "extra" =
      some (JSValue.num 5) := by
  have h := coerce_extras_retained [("extra", JSValue.str "5")] [] "extra"
    (JSValue.str "5") (by decide) (by decide) (by decide)
  exact h.trans (by decide)

/-! ## Claim C10 — resolving the cloned defaults is the identity -/

/-- C10: for every defaults mapping with pairwise-distinct keys whose
values are (finite) numbers or strings, coercing the cloned form of the
defaults against those same defaults reproduces them exactly:
`coerceParameterTypes (cloneParameters defaults) defaults = defaults`. -/
theorem coerce_clone_defaults_id
    (defaults : List (String × JSValue))
    (hnodup : (defaults.map Prod.fst).Nodup)
    (hvals : ∀ kv ∈ defaults, kv.2 ≠ JSValue.null) :
    coerceParameterTypes (cloneParameters defaults) defaults = defaults := by
  have hclone_lookup : ∀ k, lookupParam (cloneParameters defaults) k =
      (lookupParam defaults k).map cloneValue := by
    intro k
    exact lookupParam_map_entry (fun _ v => cloneValue v) defaults k
  have hentry : ∀ kv ∈ defaults,
      coerceDefaultEntry (cloneParameters defaults) kv.1 kv.2 = kv.2 := by
    rintro ⟨k, dv⟩ hmem
    have hk : lookupParam defaults k = some dv :=
      lookupParam_of_mem defaults k dv hnodup hmem
    have hcl : lookupParam (cloneParameters defaults) k = some (cloneValue dv) := by
      rw [hclone_lookup, hk]
      rfl
    cases dv with
    | null => exact absurd rfl (hvals (k, JSValue.null) hmem)
    | num n =>
      have hne : cloneValue (JSValue.num n) ≠ JSValue.str "" := by
        simp only [cloneValue, ne_eq, JSValue.str.injEq]
        exact intToString_ne_empty n
      simp only [coerceDefaultEntry, hcl, if_neg hne, cloneValue]
      simp [jsNumberOfValue, jsNumber_intToString n]
    | str s =>
      simp only [coerceDefaultEntry, hcl, cloneValue]
      split <;> rfl
  have hmap : defaults.map
      (fun kv => (kv.1, coerceDefaultEntry (cloneParameters defaults) kv.1 kv.2)) =
      defaults := by
    conv_rhs => rw [← List.map_id defaults]
    apply List.map_congr_left
    intro kv hkv
    rw [hentry kv hkv]
    rfl
  rw [coerceParameterTypes, hmap]
  apply coerceExtras_skips
  intro kv hkv
  apply hasKey_of_mem_fst
  obtain ⟨kv0, hkv0, rfl⟩ := List.mem_map.mp hkv
  exact List.mem_map.mpr ⟨kv0, hkv0, rfl⟩

/-- Witness for C10 on a concrete manifest defaults mapping with numeric
and string values. -/
theorem coerce_clone_defaults_id_witness :
    coerceParameterTypes
      (cloneParameters [("rsiPeriod", JSValue.num 14), ("maType", JSValue.str "ema")])
      [("rsiPeriod", JSValue.num 14), ("maType", JSValue.str "ema")] =
      [("rsiPeriod", JSValue.num 14), ("maType", JSValue.str "ema")] :=
  coerce_clone_defaults_id
    [("rsiPeriod", JSValue.num 14), ("maType", JSValue.str "ema")]
    (by decide) (by decide)

/-! ## Behaviour of the polling loop -/

theorem pollAux_timeout (get : Nat → Option JobSnapshot) :
    ∀ (remaining start : Nat),
      (∀ i, i < remaining → pollStop (get (start + i)) = false) →
      pollAux get start remaining = PollOutcome.timedOut := by
  intro remaining
  induction remaining with
  | zero => intro start _; rfl
  | succ r ih =>
    intro start h
    have h0 : pollStop (get start) = false := by
      simpa using h 0 (Nat.succ_pos r)
    simp only [pollAux, h0, Bool.false_eq_true, if_false]
    apply ih
    intro i hi
    rw [show start + 1 + i = start + (i + 1) by omega]
    exact h (i + 1) (by omega)

theorem pollAux_first (get : Nat → Option JobSnapshot) :
    ∀ (remaining start i : Nat), i < remaining →
      pollStop (get (start + i)) = true →
      (∀ j, j < i → pollStop (get (start + j)) = false) →
      pollAux get start remaining = PollOutcome.returned (get (start + i)) := by
  intro remaining
  induction remaining with
  | zero => intro start i hi; exact absurd hi (Nat.not_lt_zero i)
  | succ r ih =>
    intro start i hi hstop hbefore
    cases i with
    | zero =>
      simp only [Nat.add_zero] at hstop
      simp [pollAux, hstop]
    | succ i' =>
      have h0 : pollStop (get start) = false := by
        simpa using hbefore 0 (Nat.succ_pos i')
      simp only [pollAux, h0, Bool.false_eq_true, if_false]
      have hshift : start + 1 + i' = start + (i' + 1) := by omega
      have := ih (start + 1) i' (by omega)
        (by rw [hshift]; exact hstop)
        (fun j hj => by
          rw [show start + 1 + j = start + (j + 1) by omega]
          exact hbefore (j + 1) (by omega))
      rw [this, hshift]

/-! ## Claim C2 — the completion polling loop -/

/-- C2 counterexample: a job whose status is the terminal `failed` at every
attempt.  The loop never returns its snapshot: it raises the timeout error
after the full attempt budget, even though the job is terminal from the
very first attempt. -/
theorem pollBacktest_failed_timeout_cex :
    specTerminalStatus "failed" = true ∧
    pollBacktest (fun _ => some { status := some "failed" }) 8 =
      PollOutcome.timedOut := by
  exact ⟨rfl, rfl⟩

/-- C2 (amended): the polling loop is a bounded retry loop with fixed
attempt count and fixed delay, but its exit test recognizes only a missing
job, a falsy status, or status `completed` — not `failed`.  It returns the
snapshot of the first attempt passing that test, and it raises the timeout
error exactly when no attempt within the budget passes it (so a job that
only ever reports `failed` times out). -/
theorem poll_first_stop_or_timeout (get : Nat → Option JobSnapshot) (attempts : Nat) :
    (∀ i, i < attempts → pollStop (get i) = true →
      (∀ j, j < i → pollStop (get j) = false) →
      pollBacktest get attempts = PollOutcome.returned (get i)) ∧
    ((∀ i, i < attempts → pollStop (get i) = false) →
      pollBacktest get attempts = PollOutcome.timedOut) := by
  constructor
  · intro i hi hstop hbefore
    have h := pollAux_first get attempts 0 i hi (by simpa using hstop)
      (fun j hj => by simpa using hbefore j hj)
    simpa using h
  · intro hall
    exact pollAux_timeout get attempts 0 (fun i hi => by simpa using hall i hi)

/-- Witness for C2 (amended): a job reporting `completed` at the first
attempt is returned immediately. -/
theorem poll_first_stop_witness :
    pollBacktest (fun _ => some { status := some "completed" }) 8 =
      PollOutcome.returned (some { status := some "completed" }) :=
  (poll_first_stop_or_timeout (fun _ => some { status := some "completed" }) 8).1
    0 (by decide) (by decide) (fun j hj => absurd hj (Nat.not_lt_zero j))

/-! ## Claim C3 — monotonic status sequences -/

/-- C3: every observed status sequence of a job — a `queued`-initial chain
of JobManager transitions — is a prefix of `[queued, running, completed]`
or of `[queued, running, failed]`: transitions are monotonic, no state is
revisited, and the states are never observed out of this order. -/
theorem job_status_trace_shape (l : List JobStatus)
    (h : List.Chain JobStep JobStatus.queued l) :
    (JobStatus.queued :: l) <+:
        [JobStatus.queued, JobStatus.running, JobStatus.completed] ∨
    (JobStatus.queued :: l) <+:
        [JobStatus.queued, JobStatus.running, JobStatus.failed] := by
  cases h with
  | nil => exact Or.inl ⟨[JobStatus.running, JobStatus.completed], rfl⟩
  | cons hstep htail =>
    cases hstep
    cases htail with
    | nil => exact Or.inl ⟨[JobStatus.completed], rfl⟩
    | cons hstep2 htail2 =>
      cases hstep2 with
      | complete =>
        cases htail2 with
        | nil => exact Or.inl ⟨[], rfl⟩
        | cons hstep3 _ => cases hstep3
      | fail =>
        cases htail2 with
        | nil => exact Or.inr ⟨[], rfl⟩
        | cons hstep3 _ => cases hstep3

/-- Witness for C3 on the full successful trace
`queued → running → completed`. -/
theorem job_status_trace_shape_witness :
    ([JobStatus.queued, JobStatus.running, JobStatus.completed] <+:
        [JobStatus.queued, JobStatus.running, JobStatus.completed]) ∨
    ([JobStatus.queued, JobStatus.running, JobStatus.completed] <+:
        [JobStatus.queued, JobStatus.running, JobStatus.failed]) :=
  job_status_trace_shape [JobStatus.running, JobStatus.completed]
    (List.Chain.cons JobStep.start (List.Chain.cons JobStep.complete List.Chain.nil))

/-! ## Claim C7 — `result` iff completed, `error` iff failed -/

theorem jobUpdate_preserves_inv {j j' : JobRecord} (hupd : JobUpdate j j')
    (hinv : resultErrorInv j) : resultErrorInv j' := by
  obtain ⟨hres, herr⟩ := hinv
  cases hupd with
  | start hq =>
    have h1 : j.result = none := by
      rcases hr : j.result with _ | r
      · rfl
      · exact absurd (hres.mp (by simp [hr])) (by simp [hq])
    have h2 : j.error = none := by
      rcases he : j.error with _ | e
      · rfl
      · exact absurd (herr.mp (by simp [he])) (by simp [hq])
    simp [resultErrorInv, h1, h2]
  | complete res hr =>
    have h2 : j.error = none := by
      rcases he : j.error with _ | e
      · rfl
      · exact absurd (herr.mp (by simp [he])) (by simp [hr])
    simp [resultErrorInv, h2]
  | fail msg hr =>
    have h1 : j.result = none := by
      rcases hrr : j.result with _ | r
      · rfl
      · exact absurd (hres.mp (by simp [hrr])) (by simp [hr])
    simp [resultErrorInv, h1]

/-- C7: every job record reachable through the lifecycle has the `result`
field present iff its status is completed, and the `error` field present
iff its status is failed — so every snapshot served by `get` satisfies
both equivalences. -/
theorem job_record_result_error_iff (j : JobRecord) (h : ReachableJob j) :
    resultErrorInv j := by
  induction h with
  | created => simp [resultErrorInv, createdJob]
  | step _ hupd ih => exact jobUpdate_preserves_inv hupd ih

/-- Witness for C7 at the freshly created record. -/
theorem job_record_result_error_iff_witness : resultErrorInv createdJob :=
  job_record_result_error_iff createdJob ReachableJob.created

/-! ## Claim C8 — synchronous `get`/`create` failures -/

theorem lookupJob_append_last (store : List (String × JobRecord))
    (jobId : String) (j : JobRecord) :
    lookupJob (store ++ [(jobId, j)]) jobId = some j := by
  induction store with
  | nil => simp [lookupJob]
  | cons kv rest ih =>
    obtain ⟨k, j'⟩ := kv
    simp [lookupJob, ih]

/-- C8: `get` fails with `NotFoundError` exactly for ids not in the store
and otherwise returns the latest written snapshot; `create` fails with
`ValidationError` for every algorithm id absent from the manifest, in
which case no job is ever instantiated.  Both failures are values of the
synchronous functions, not asynchronous effects. -/
theorem jobmanager_get_create_errors :
    (∀ (store : List (String × JobRecord)) (jobId : String),
      lookupJob store jobId = none →
      getJob store jobId = Except.error ApiError.notFound) ∧
    (∀ (store : List (String × JobRecord)) (jobId : String) (j : JobRecord),
      getJob (store ++ [(jobId, j)]) jobId = Except.ok j) ∧
    (∀ (manifest : List String) (store : List (String × JobRecord))
        (algorithmId newId : String), algorithmId ∉ manifest →
      createJob manifest store algorithmId newId = Except.error ApiError.validation ∧
      ∀ r, createJob manifest store algorithmId newId ≠ Except.ok r) := by
  refine ⟨?_, ?_, ?_⟩
  · intro store jobId h
    simp [getJob, h]
  · intro store jobId j
    simp [getJob, lookupJob_append_last]
  · intro manifest store algorithmId newId h
    constructor
    · simp [createJob, h]
    · intro r
      simp [createJob, h]

/-- Witness for C8: an unknown job id, a freshly written job id, and an
algorithm id missing from the manifest. -/
theorem jobmanager_get_create_errors_witness :
    getJob [] "missing" = Except.error ApiError.notFound ∧
    getJob [("job-1", createdJob)] "job-1" = Except.ok createdJob ∧
    createJob ["rsi_ma_cross"] [] "unknown_algo" "job-2" =
      Except.error ApiError.validation := by
  obtain ⟨h1, h2, h3⟩ := jobmanager_get_create_errors
  exact ⟨h1 [] "missing" rfl, h2 [] "job-1" createdJob,
    (h3 ["rsi_ma_cross"] [] "unknown_algo" "job-2" (by decide)).1⟩

/-! ## Claim C4 — normalized indicators mapping -/

theorem sortByTime_sorted (pts : List SeriesPoint) :
    List.Pairwise (fun a b => a.time ≤ b.time) (sortByTime pts) := by
  have h := @List.sorted_mergeSort SeriesPoint timeLe
    (fun a b c h1 h2 => by
      simp only [timeLe, decide_eq_true_eq] at h1 h2 ⊢
      omega)
    (fun a b => by
      simp only [timeLe, Bool.or_eq_true, decide_eq_true_eq]
      omega)
    pts
  apply List.Pairwise.imp ?_ h
  intro a b hab
  simpa [timeLe] using hab

theorem sortByTime_ne_nil {pts : List SeriesPoint} (h : pts ≠ []) :
    sortByTime pts ≠ [] := by
  intro hcontra
  have := congrArg List.length hcontra
  rw [sortByTime, List.length_mergeSort] at this
  exact h (List.length_eq_zero.mp this)

/-- C4: the normalized `indicators` section maps indicator keys to
time-ordered sequences of points and contains only keys with non-empty
data; whenever the raw output has no indicator section — none of the
configured keys is present — the result is the empty mapping, not an
error. -/
theorem extractIndicators_spec (configured : List String)
    (raw : List (String × List SeriesPoint)) :
    (∀ k pts, (k, pts) ∈ extractIndicators configured raw →
      pts ≠ [] ∧ List.Pairwise (fun a b => a.time ≤ b.time) pts) ∧
    ((∀ key ∈ configured, lookupSeries raw key = none) →
      extractIndicators configured raw = []) := by
  constructor
  · intro k pts hmem
    obtain ⟨key, _, hf⟩ := List.mem_filterMap.mp hmem
    rcases hlook : lookupSeries raw key with _ | pts0
    · rw [hlook] at hf
      exact absurd hf (by simp)
    · rw [hlook] at hf
      by_cases h0 : pts0 = []
      · simp [h0] at hf
      · simp [h0] at hf
        obtain ⟨-, hpts⟩ := hf
        exact ⟨hpts ▸ sortByTime_ne_nil h0, hpts ▸ sortByTime_sorted pts0⟩
  · intro hnone
    induction configured with
    | nil => rfl
    | cons key rest ih =>
      have h0 : lookupSeries raw key = none := hnone key (List.mem_cons_self ..)
      have htail := ih (fun key' h' => hnone key' (List.mem_cons_of_mem _ h'))
      simpa [extractIndicators, List.filterMap_cons, h0] using htail

/-- Witness for C4: raw output without any indicator section yields the
empty mapping. -/
theorem extractIndicators_spec_witness :
    extractIndicators ["rsi", "rsiSma"] [] = [] :=
  (extractIndicators_spec ["rsi", "rsiSma"] []).2 (fun _ _ => rfl)

/-! ## Claim C6 — reconstructed trades: symbol and profit -/

theorem pairFillsAux_mem (fills : List Fill) :
    ∀ (pending : Option Fill) (nid : Nat) (sym : String),
      (∀ f ∈ fills, f.symbol = sym) →
      (∀ e, pending = some e → e.symbol = sym) →
      ∀ t ∈ pairFillsAux pending nid fills,
        t.symbol = sym ∧
        t.profit = (t.exitPrice - t.entryPrice) * t.quantity * dirSign t.direction := by
  induction fills with
  | nil => intro pending nid sym _ _ t ht; simp [pairFillsAux] at ht
  | cons f rest ih =>
    intro pending nid sym hall hpend t ht
    have hf : f.symbol = sym := hall f (List.mem_cons_self ..)
    have htailsym : ∀ g ∈ rest, g.symbol = sym :=
      fun g hg => hall g (List.mem_cons_of_mem _ hg)
    cases pending with
    | none =>
      refine ih (some f) nid sym htailsym ?_ t (by simpa [pairFillsAux] using ht)
      intro e he
      cases he
      exact hf
    | some e =>
      by_cases hdir : f.isBuy = e.isBuy
      · simp only [pairFillsAux, if_pos hdir] at ht
        exact ih (some e) nid sym htailsym hpend t ht
      · simp only [pairFillsAux, if_neg hdir] at ht
        rcases List.mem_cons.mp ht with rfl | htail
        · have hesym : e.symbol = sym := hpend e rfl
          refine ⟨by simp [mkTrade, hesym], ?_⟩
          simp [mkTrade]
        · exact ih none (nid + 1) sym htailsym (fun e' he' => by cases he') t htail

/-- C6: every trade produced by the fallback reconstruction from
execution/report fills is for the requested symbol only, and its profit
equals `(exitPrice - entryPrice) * quantity` sign-adjusted by the trade's
direction. -/
theorem reconstructTrades_symbol_profit (sym : String) (fills : List Fill)
    (t : Trade) (ht : t ∈ reconstructTrades sym fills) :
    t.symbol = sym ∧
    t.profit = (t.exitPrice - t.entryPrice) * t.quantity * dirSign t.direction := by
  refine pairFillsAux_mem (fills.filter (fun f => f.symbol == sym)) none 1 sym
    ?_ (fun e he => by cases he) t ht
  intro f hf
  have := (List.mem_filter.mp hf).2
  simpa using this

/-- Witness for C6 at a concrete SPY round trip: entry 100, exit 110,
quantity 5, long, profit 50. -/
theorem reconstructTrades_symbol_profit_witness :
    sampleTrade.symbol = "SPY" ∧
    sampleTrade.profit =
      (sampleTrade.exitPrice - sampleTrade.entryPrice) * sampleTrade.quantity *
        dirSign sampleTrade.direction := by
  have hlist : reconstructTrades "SPY" sampleFills = [sampleTrade] := by
    simp [reconstructTrades, sampleFills, pairFillsAux, mkTrade, sampleTrade, dirSign]
    norm_num
  have hmem : sampleTrade ∈ reconstructTrades "SPY" sampleFills := by
    rw [hlist]
    exact List.mem_singleton.mpr rfl
  exact reconstructTrades_symbol_profit "SPY" sampleFills sampleTrade hmem

/-! ## Claim C9 — the REST request helper -/

/-- C9: the request helper resolves with the parsed JSON body iff the
response is ok (with parsing enabled); with parsing disabled an ok
response resolves with no parsed body; and every non-ok response throws an
`Error` — never resolves — whose message is the body's `detail` field when
that field is a string, otherwise the response's status text, otherwise
the literal `Request failed`. -/
theorem request_ok_iff_and_error (r : FetchResponse) (p : Bool) :
    (∀ j, r.jsonBody = some j →
      (request true r = RequestOutcome.success (some j) ↔ r.ok = true)) ∧
    (r.ok = true → request false r = RequestOutcome.success none) ∧
    (r.ok = false →
      request p r = RequestOutcome.thrown (specErrorMessage r) ∧
      ∀ b, request p r ≠ RequestOutcome.success b) := by
  refine ⟨?_, ?_, ?_⟩
  · intro j hj
    constructor
    · intro hreq
      rcases hok : r.ok with _ | _
      · rw [request, if_pos (by rw [hok])] at hreq
        exact absurd hreq (by simp)
      · rfl
    · intro hok
      simp [request, hok, hj]
  · intro hok
    simp [request, hok]
  · intro hok
    have hmsg : safeParseError r = specErrorMessage r := rfl
    constructor
    · simp [request, hok, hmsg]
    · intro b
      simp [request, hok]

/-- Witness for C9 on the repo's own client-test scenario: a 404 response
with body `{detail: 'missing'}` throws with message `missing`. -/
theorem request_ok_iff_and_error_witness :
    request true sampleErrorResponse = RequestOutcome.thrown "missing" := by
  have h := ((request_ok_iff_and_error sampleErrorResponse true).2.2 rfl).1
  exact h.trans rfl

end QuantConn
